import Mathlib

/-!
Shallow embedding of `saf/theories.py` (solved-af): label-variable allocation,
the complete-semantics CNF theories, the DIMACS encoder, and the solver-output
decoders, together with theorems checking the specification's claims.

The file `saf/argument.py` (the `Label` enum) and `saf/framework.py` (the
framework interface) are not part of the given sources; they are modelled from
the specification where indicated.
-/

namespace SAF

/-- Modelled from the spec: `Label` (from `saf.argument`, missing from the given
sources) has exactly the three values `In`, `Out`, `Und`, each with a fixed
distinct small offset used directly in integer arithmetic; as a Python `IntEnum`
enumerated in order this gives `In = 1`, `Out = 2`, `Und = 3`. -/
inductive Label | In | Out | Und deriving DecidableEq

/-- Numeric value of a label, as used in `len(Label) * (arg_value - 1) + label`. -/
def Label.val : Label → Int
  | .In => 1
  | .Out => 2
  | .Und => 3

/-- Number of labels, `len(Label)`. -/
def numLabels : Nat := 3

/-- Modelled from the spec: the framework interface (`saf/framework.py`, missing
from the given sources) supplies an ordered sequence of argument ids
(`getArguments`), the attacker set of an argument (`getAttackers`), and the set
of arguments it attacks (`getAttackedBy`). -/
structure Framework where
  getArguments : List Int
  getAttackers : Int → List Int
  getAttackedBy : Int → List Int

/-- Modelled from the spec: `len(framework)` (`size()`) is the count of the
framework's arguments. -/
def Framework.len (f : Framework) : Nat := f.getArguments.length

/-- `_calculateLabelVar`: `len(Label) * (arg_value - 1) + label`. -/
def _calculateLabelVar (arg_value : Int) (label : Label := Label.In) : Int :=
  (numLabels : Int) * (arg_value - 1) + label.val

/-- The memo table `_label_var_cache`. Python keys it by the string
`f'{str(label)}-{str(arg_value)}'`, which encodes exactly the pair
`(label, arg_value)` (the three `str(label)` values are fixed and dash-free,
and `str` on ints is injective); the cache is modelled as an association list
keyed by that pair. -/
abbrev LabelVarCache := List ((Label × Int) × Int)

/-- `_argToLabelVar`: look the pair up in the cache; on a miss compute
`_calculateLabelVar`, store it, and return it; on a hit return the cached
value. The updated cache is returned alongside the result. -/
def _argToLabelVar (arg_value : Int) (label : Label) (cache : LabelVarCache) :
    Int × LabelVarCache :=
  match cache.lookup (label, arg_value) with
  | none =>
    let label_var := _calculateLabelVar arg_value label
    (label_var, ((label, arg_value), label_var) :: cache)
  | some v => (v, cache)

/-- A cache state is consistent when every stored entry holds the value of the
underlying formula for its key. The empty cache is trivially consistent, and
(as proved below) `_argToLabelVar` preserves consistency. -/
def CacheOK (cache : LabelVarCache) : Prop :=
  ∀ l a v, ((l, a), v) ∈ cache → v = _calculateLabelVar a l

/-- `inLabelVariable`. The memoized allocator always returns the value of
`_calculateLabelVar` (cache transparency, proved below), so the three
convenience accessors are modelled by the formula directly. -/
def inLabelVariable (arg_value : Int) : Int := _calculateLabelVar arg_value Label.In

/-- `outLabelVariable`. -/
def outLabelVariable (arg_value : Int) : Int := _calculateLabelVar arg_value Label.Out

/-- `undLabelVariable`. -/
def undLabelVariable (arg_value : Int) : Int := _calculateLabelVar arg_value Label.Und

def inLab : Int → Int := inLabelVariable

def outLab : Int → Int := outLabelVariable

def undLab : Int → Int := undLabelVariable

/-- `CNFTheory`: a clause-generating template wrapped as an object. -/
structure CNFTheory where
  template : Int → Framework → List (List Int)

/-- `CNFTheory.generate`: apply the template to one argument. -/
def CNFTheory.generate (t : CNFTheory) (argument_value : Int)
    (framework : Framework) : List (List Int) :=
  t.template argument_value framework

/-- `CNFTheory.generateAll`: concatenate `generate` over the argument values in
order (the `ret_cnf += ...` loop). -/
def CNFTheory.generateAll (t : CNFTheory) (argument_values : List Int)
    (framework : Framework) : List (List Int) :=
  (argument_values.map (fun arg_val => t.generate arg_val framework)).flatten

/-- Python `sep.join(strs)`: empty for `[]`, otherwise the strings interleaved
with the separator. -/
def joinSep (sep : String) : List String → String
  | [] => ""
  | [s] => s
  | s :: rest => s ++ sep ++ joinSep sep rest

/-- `DIMACSParser.parseCNFTheory`:
`'\n'.join([' '.join(str(x) for x in clause) + ' 0' for clause in theory]) + '\n'`. -/
def parseCNFTheory (theory : List (List Int)) : String :=
  joinSep "\n" (theory.map (fun clause =>
    joinSep " " (clause.map (fun x => toString x)) ++ " 0")) ++ "\n"

/-- `DIMACSHeader`: variable and clause counts. -/
structure DIMACSHeader where
  _vars : Nat
  _clauses : Nat

/-- `DIMACSHeader.__str__`: `f"p cnf {self._vars} {self._clauses}\n"`. -/
def DIMACSHeader.str (h : DIMACSHeader) : String :=
  "p cnf " ++ toString h._vars ++ " " ++ toString h._clauses ++ "\n"

/-- `DIMACSInput`: a header plus the body text. -/
structure DIMACSInput where
  _header : DIMACSHeader
  _content : String

/-- `DIMACSInput.__str__`: header text followed by the content. -/
def DIMACSInput.str (d : DIMACSInput) : String := d._header.str ++ d._content

/-- The concatenation of all raw clauses generated by the parser's theories,
each theory over all argument values in order (the loop body of `parse`). -/
def rawClauses (theories : List CNFTheory) (framework : Framework) :
    List (List Int) :=
  (theories.map (fun t =>
    t.generateAll framework.getArguments framework)).flatten

/-- `DIMACSParser.parse`: `num_of_vars = len(framework) * len(Label)`, the
clauses of every theory over every argument accumulated in order,
`num_of_clauses` their total count, and the body serialized by
`parseCNFTheory`. A `DIMACSParser` is represented by its list of theories. -/
def parse (theories : List CNFTheory) (framework : Framework) : DIMACSInput :=
  let num_of_vars := framework.len * numLabels
  let raw_clauses := rawClauses theories framework
  let num_of_clauses := raw_clauses.length
  ⟨⟨num_of_vars, num_of_clauses⟩, parseCNFTheory raw_clauses⟩

/-- `uniqueness_theory`: exactly-one-label clauses for argument `a`. -/
def uniqueness_theory (a : Int) (_f : Framework) : List (List Int) :=
  [[inLab a, outLab a, undLab a],
   [-inLab a, -outLab a],
   [-inLab a, -undLab a],
   [-outLab a, -undLab a]]

/-- `in_complete_1`: one clause `(¬Out(b) for every attacker b) ∨ In(a)`. -/
def in_complete_1 (a : Int) (f : Framework) : List (List Int) :=
  [(f.getAttackers a).map (fun attacker => -outLab attacker) ++ [inLab a]]

/-- `in_complete_2`: one clause `(¬In(a) ∨ Out(c))` per attacked argument `c`. -/
def in_complete_2 (a : Int) (f : Framework) : List (List Int) :=
  (f.getAttackedBy a).map (fun attacked => [-inLab a, outLab attacked])

/-- `out_complete_1`: one clause `(¬In(b) ∨ Out(a))` per attacker `b`. -/
def out_complete_1 (a : Int) (f : Framework) : List (List Int) :=
  (f.getAttackers a).map (fun attacker => [-inLab attacker, outLab a])

/-- `out_complete_2`: one clause `(In(b) for every attacker b) ∨ ¬Out(a)`. -/
def out_complete_2 (a : Int) (f : Framework) : List (List Int) :=
  [(f.getAttackers a).map (fun attacker => inLab attacker) ++ [-outLab a]]

/-- `CompleteLabelingDIMACSParser`: the `DIMACSParser` built from the five
complete-semantics templates, represented by its theory list. -/
def CompleteLabelingDIMACSParser : List CNFTheory :=
  [⟨uniqueness_theory⟩, ⟨in_complete_1⟩, ⟨in_complete_2⟩,
   ⟨out_complete_1⟩, ⟨out_complete_2⟩]

/-- Split a character list at every single space, Python `str.split(' ')`:
no collapsing of adjacent separators, and the empty string yields `[[]]`. -/
def splitTok : List Char → List (List Char)
  | [] => [[]]
  | c :: rest =>
    if c = ' ' then [] :: splitTok rest
    else
      match splitTok rest with
      | t :: ts => (c :: t) :: ts
      | [] => [[c]]

/-- Python `s.split(' ')` on a string. -/
def pySplit (s : String) : List String := (splitTok s.data).map (fun cs => String.mk cs)

/-- The tokens `sat_output.split(' ')[1:-1]`: all tokens with the first and the
last discarded. -/
def middleTokens (sat_output : String) : List String :=
  ((pySplit sat_output).drop 1).dropLast

/-- Accumulate decimal digits; fail on the first non-digit character. -/
def parseDigitsAux : List Char → Nat → Option Nat
  | [], acc => some acc
  | c :: rest, acc =>
    if c.isDigit then parseDigitsAux rest (10 * acc + (c.toNat - 48)) else none

/-- Parse a nonempty all-digit character list as a natural number. -/
def parseDigits : List Char → Option Nat
  | [] => none
  | cs => parseDigitsAux cs 0

/-- Python `int(token)` on a token: an optional sign followed by a nonempty
digit string (the whitespace stripping and underscore grouping Python also
accepts are not modelled); failure is the raised `ValueError`. -/
def pyInt (s : String) : Option Int :=
  match s.data with
  | '-' :: rest => (parseDigits rest).map (fun n => -(n : Int))
  | '+' :: rest => (parseDigits rest).map (fun n => (n : Int))
  | cs => (parseDigits cs).map (fun n => (n : Int))

/-- The list comprehension `[int(lab_var) for lab_var in tokens]`: all tokens
parsed as integers, the whole computation failing if any token fails. -/
def tokensToModel : List String → Option (List Int)
  | [] => some []
  | t :: ts =>
    match pyInt t, tokensToModel ts with
    | some v, some m => some (v :: m)
    | _, _ => none

/-- Python `x in range(start, stop, step)` for a positive step. -/
def rangeMem (x start stop step : Int) : Bool :=
  decide (start ≤ x) && decide (x < stop) && decide ((x - start) % step = 0)

/-- `DIMACSParser.extractExtention`: parse the middle tokens, then keep every
`lab_var > 0` with `abs(lab_var) in range(1, len(model), len(Label))`. -/
def extractExtention (sat_output : String) : Option (List Int) :=
  (tokensToModel (middleTokens sat_output)).map (fun model =>
    model.filter (fun lab_var =>
      decide (0 < lab_var) &&
      rangeMem (lab_var.natAbs : Int) 1 (model.length : Int) (numLabels : Int)))

/-- `DIMACSParser.extractLabeling`: parse the middle tokens, then keep the
positive values. -/
def extractLabeling (sat_output : String) : Option (List Int) :=
  (tokensToModel (middleTokens sat_output)).map (fun model =>
    model.filter (fun x => decide (0 < x)))

/-- Modelled from the spec's words, for comparison with `extractExtention`:
"every positive label-variable id whose position corresponds to the `In`
offset, mapped back to its argument id" — the same selection, with each
selected variable `3·(A − 1) + 1` mapped back to its argument id `A`. -/
def specExtractExtension (sat_output : String) : Option (List Int) :=
  (tokensToModel (middleTokens sat_output)).map (fun model =>
    (model.filter (fun lab_var =>
      decide (0 < lab_var) &&
      rangeMem (lab_var.natAbs : Int) 1 (model.length : Int) (numLabels : Int))).map
      (fun lab_var => (lab_var - 1) / (numLabels : Int) + 1))

/-- Modelled from the spec's words, for comparison with `DIMACSInput.str` on the
result of `parse`: the header line followed by exactly one newline-terminated
line per clause, the clause's literals joined by single spaces with a trailing
` 0`. -/
def specDIMACSText (num_of_vars num_of_clauses : Nat)
    (clauses : List (List Int)) : String :=
  DIMACSHeader.str ⟨num_of_vars, num_of_clauses⟩ ++
    clauses.foldr (fun clause acc =>
      joinSep " " (clause.map (fun x => toString x)) ++ " 0" ++ "\n" ++ acc) ""

/-- Truth value of a DIMACS literal under an assignment of the variables. -/
def evalLit (v : Int → Bool) (lit : Int) : Bool :=
  if 0 < lit then v lit else !(v (-lit))

/-- A clause is satisfied when some literal is true. -/
def satClause (v : Int → Bool) (clause : List Int) : Bool :=
  clause.any (evalLit v)

/-- The two-argument framework of the spec's concrete scenario: arguments
`{1, 2}` and the single attack `1 → 2`. -/
def F12 : Framework :=
  ⟨[1, 2], fun a => if a = 2 then [1] else [], fun a => if a = 1 then [2] else []⟩

/-- Total attack-edge count as the sum of attacker-set sizes. -/
def sumAttackers (f : Framework) : Nat :=
  (f.getArguments.map (fun a => (f.getAttackers a).length)).sum

/-- Sum of attacked-by-set sizes over all arguments. -/
def sumAttackedBy (f : Framework) : Nat :=
  (f.getArguments.map (fun a => (f.getAttackedBy a).length)).sum

/-- A consistent cache only answers lookups with the formula's value. -/
lemma lookup_cacheOK {c : LabelVarCache} (h : CacheOK c) {l : Label} {a v : Int}
    (hl : c.lookup (l, a) = some v) : v = _calculateLabelVar a l := by
  induction c with
  | nil => simp [List.lookup] at hl
  | cons e rest ih =>
    obtain ⟨⟨l', a'⟩, w⟩ := e
    rw [List.lookup] at hl
    cases hbe : ((l, a) == (l', a')) with
    | true =>
      rw [hbe] at hl
      simp only [Option.some.injEq] at hl
      obtain ⟨rfl, rfl⟩ := Prod.mk.injEq .. ▸ eq_of_beq hbe
      rw [← hl]
      exact h l a w (by simp)
    | false =>
      rw [hbe] at hl
      exact ih (fun l a v hm => h l a v (List.mem_cons_of_mem _ hm)) hl

/-- The allocator preserves cache consistency. -/
lemma argToLabelVar_cacheOK {c : LabelVarCache} (h : CacheOK c) (a : Int)
    (l : Label) : CacheOK (_argToLabelVar a l c).2 := by
  unfold _argToLabelVar
  cases hl : c.lookup (l, a) with
  | none =>
    simp only [hl]
    intro l' a' v hm
    rcases List.mem_cons.mp hm with hhead | htail
    · obtain ⟨⟨rfl, rfl⟩, rfl⟩ := Prod.mk.injEq .. ▸ hhead
      rfl
    · exact h l' a' v htail
  | some v => simpa only [hl] using h

/-- Cache transparency: on any consistent cache the memoized allocator returns
exactly the value of the underlying formula. -/
lemma argToLabelVar_fst {c : LabelVarCache} (h : CacheOK c) (a : Int)
    (l : Label) : (_argToLabelVar a l c).1 = _calculateLabelVar a l := by
  unfold _argToLabelVar
  cases hl : c.lookup (l, a) with
  | none => simp [hl]
  | some v => simp only [hl]; exact lookup_cacheOK h hl

/-- The label-variable formula is injective on (argument, label) pairs. -/
lemma calculateLabelVar_injective {a b : Int} {l m : Label}
    (h : _calculateLabelVar a l = _calculateLabelVar b m) : a = b ∧ l = m := by
  have key : 3 * (a - 1) + l.val = 3 * (b - 1) + m.val := by
    simpa [_calculateLabelVar, numLabels] using h
  have hlm : l = m := by
    rcases l <;> rcases m <;> simp [Label.val] at key ⊢ <;> omega
  subst hlm
  have hab : a = b := by
    rcases l <;> simp [Label.val] at key <;> omega
  exact ⟨hab, rfl⟩

/-- The empty cache is consistent. -/
lemma cacheOK_nil : CacheOK [] := by
  intro l a v hm
  exact absurd hm (List.not_mem_nil _)

/-- C2: for every argument id and label, the allocator returns
`3·(A − 1) + offset(L)`; a repeated call with the same pair (on the cache the
first call produced) returns the identical integer, the memo cache never
changing the value of the underlying formula; and the mapping is injective:
distinct arguments or distinct labels get distinct variable ids. -/
theorem claim_C2 (a b : Int) (l m : Label) (c : LabelVarCache)
    (hc : CacheOK c) :
    (_argToLabelVar a l c).1 = 3 * (a - 1) + l.val
    ∧ (_argToLabelVar a l (_argToLabelVar a l c).2).1 = (_argToLabelVar a l c).1
    ∧ (_calculateLabelVar a l = _calculateLabelVar b m → a = b ∧ l = m) := by
  have h1 := argToLabelVar_fst hc a l
  have h2 := argToLabelVar_fst (argToLabelVar_cacheOK hc a l) a l
  refine ⟨?_, ?_, fun h => calculateLabelVar_injective h⟩
  · rw [h1]; simp [_calculateLabelVar, numLabels]
  · rw [h1, h2]

/-- Witness for C2 at argument ids 1 and 2 with labels `In` and `Out`, starting
from the empty cache. -/
theorem claim_C2_witness :
    (_argToLabelVar 1 Label.In []).1 = 3 * (1 - 1) + Label.In.val
    ∧ (_argToLabelVar 1 Label.In
        (_argToLabelVar 1 Label.In ([] : LabelVarCache)).2).1 =
      (_argToLabelVar 1 Label.In ([] : LabelVarCache)).1
    ∧ (_calculateLabelVar 1 Label.In = _calculateLabelVar 2 Label.Out →
        (1 : Int) = 2 ∧ Label.In = Label.Out) :=
  claim_C2 1 2 Label.In Label.Out [] cacheOK_nil

/-- C6 counterexample: the allocator performs no validation at all — called
with argument id 0 (and the `In` label, on the empty cache) it raises nothing
and returns the silently coerced, non-positive variable id −2. -/
theorem claim_C6_counterexample :
    (_argToLabelVar 0 Label.In []).1 = -2
    ∧ (_argToLabelVar 0 Label.In ([] : LabelVarCache)).1 ≤ 0 := by
  constructor <;> decide

/-- C6 amended: for every argument id < 1 the allocator does not fail — there
is no `InvalidArgumentId` check in the code — and instead returns the plain
formula value `3·(A − 1) + offset(L)`, which is a non-positive (hence invalid)
variable id for every label. -/
theorem claim_C6 (a : Int) (l : Label) (c : LabelVarCache) (ha : a < 1)
    (hc : CacheOK c) :
    (_argToLabelVar a l c).1 = 3 * (a - 1) + l.val
    ∧ (_argToLabelVar a l c).1 ≤ 0 := by
  have h1 := argToLabelVar_fst hc a l
  constructor
  · rw [h1]; simp [_calculateLabelVar, numLabels]
  · rw [h1]
    rcases l <;> simp [_calculateLabelVar, Label.val, numLabels] <;> omega

/-- Witness for C6 (amended) at argument id 0 with the `In` label on the empty
cache. -/
theorem claim_C6_witness :
    (0 : Int) < 1
    ∧ (_argToLabelVar 0 Label.In []).1 = 3 * (0 - 1) + Label.In.val
    ∧ (_argToLabelVar 0 Label.In ([] : LabelVarCache)).1 ≤ 0 :=
  ⟨by decide, claim_C6 0 Label.In [] (by decide) cacheOK_nil⟩

/-- Closed form of the `In` label variable. -/
lemma inLab_eq (a : Int) : inLab a = 3 * (a - 1) + 1 := by
  simp [inLab, inLabelVariable, _calculateLabelVar, Label.val, numLabels]

/-- Closed form of the `Out` label variable. -/
lemma outLab_eq (a : Int) : outLab a = 3 * (a - 1) + 2 := by
  simp [outLab, outLabelVariable, _calculateLabelVar, Label.val, numLabels]

/-- C4: on the spec's concrete scenario (arguments `{1, 2}`, single attack
`1 → 2`) the encoded problem has variable count 6; in-rule-1 for argument 1 is
the unit clause `[In(1)]`; in-rule-2 for argument 1 and out-rule-1 for
argument 2 are both `[¬In(1) ∨ Out(2)]`; out-rule-2 for argument 2 is
`[In(1) ∨ ¬Out(2)]`; and decoding the assignment in which exactly the
variables for `(1, In)` and `(2, Out)` are true yields extension `[1]`. -/
theorem claim_C4 :
    (parse CompleteLabelingDIMACSParser F12)._header._vars = 6
    ∧ in_complete_1 1 F12 = [[inLab 1]]
    ∧ in_complete_2 1 F12 = [[-inLab 1, outLab 2]]
    ∧ out_complete_1 2 F12 = [[-inLab 1, outLab 2]]
    ∧ out_complete_2 2 F12 = [[inLab 1, -outLab 2]]
    ∧ inLab 1 = 1 ∧ outLab 2 = 5
    ∧ extractExtention "SAT 1 -2 -3 -4 5 -6 0" = some [1] := by
  refine ⟨by decide, by decide, by decide, by decide, by decide, by decide,
    by decide, by decide⟩

/-- C5: for every argument with an empty attacker set, in-rule-1 generates
exactly the unit clause `[In(A)]` and out-rule-2 exactly the unit clause
`[¬Out(A)]`, whatever the rest of the framework is; hence any assignment
satisfying those clauses makes `In(A)` true and `Out(A)` false — the argument
is forced `In`. -/
theorem claim_C5 (f : Framework) (a : Int) (ha : 1 ≤ a)
    (h : f.getAttackers a = []) :
    in_complete_1 a f = [[inLab a]]
    ∧ out_complete_2 a f = [[-outLab a]]
    ∧ (∀ v : Int → Bool, satClause v [inLab a] = true → v (inLab a) = true)
    ∧ (∀ v : Int → Bool, satClause v [-outLab a] = true →
        v (outLab a) = false) := by
  have hin : (0 : Int) < inLab a := by rw [inLab_eq]; omega
  have hout : (0 : Int) < outLab a := by rw [outLab_eq]; omega
  refine ⟨?_, ?_, ?_, ?_⟩
  · simp [in_complete_1, h]
  · simp [out_complete_2, h]
  · intro v hv
    simp only [satClause, List.any_cons, List.any_nil, Bool.or_false] at hv
    rwa [evalLit, if_pos hin] at hv
  · intro v hv
    simp only [satClause, List.any_cons, List.any_nil, Bool.or_false] at hv
    have hcond : ¬ (0 : Int) < -outLab a := by omega
    rw [evalLit, if_neg hcond, neg_neg] at hv
    simpa using hv

/-- Witness for C5: argument 1 of the concrete two-argument framework has no
attackers and is forced `In`. -/
theorem claim_C5_witness :
    (1 : Int) ≤ 1 ∧ F12.getAttackers 1 = []
    ∧ (in_complete_1 1 F12 = [[inLab 1]]
       ∧ out_complete_2 1 F12 = [[-outLab 1]]
       ∧ (∀ v : Int → Bool, satClause v [inLab 1] = true →
            v (inLab 1) = true)
       ∧ (∀ v : Int → Bool, satClause v [-outLab 1] = true →
            v (outLab 1) = false)) :=
  ⟨by decide, by decide, claim_C5 F12 1 (by decide) (by decide)⟩

/-- Helper: a map whose function fixes every member of the list is the
identity on that list. -/
lemma map_id_of_mem {l : List Int} {g : Int → Int} (h : ∀ v ∈ l, g v = v) :
    l.map g = l := by
  induction l with
  | nil => rfl
  | cons x xs ih =>
    rw [List.map_cons, h x (by simp), ih (fun v hv => h v (by simp [hv]))]

/-- C1 counterexample: on the solver output asserting the `In` variables of
both arguments 1 and 2 (variables 1 and 4) and the stray positive 5,
`extractExtention` returns the label-variable ids `[1, 4]`, not the argument
ids `[1, 2]` the claim's mapped-back reading demands. -/
theorem claim_C1_counterexample :
    extractExtention "SAT 1 -2 -3 4 5 -6 0" = some [1, 4]
    ∧ specExtractExtension "SAT 1 -2 -3 4 5 -6 0" = some [1, 2]
    ∧ some [1, 4] ≠ some ([1, 2] : List Int) := by
  refine ⟨by decide, by decide, by decide⟩

/-- C1 amended: `extractExtention` selects exactly the positive label-variable
ids at `In` positions but returns those label-variable ids themselves — the
map back to argument ids is never applied. Its result is the spec's
mapped-back result with the `In`-variable formula `3·(A − 1) + 1` re-applied
to every entry. -/
theorem claim_C1 (sat_output : String) :
    extractExtention sat_output =
      (specExtractExtension sat_output).map
        (fun ext => ext.map (fun a => _calculateLabelVar a Label.In)) := by
  unfold extractExtention specExtractExtension
  cases htm : tokensToModel (middleTokens sat_output) with
  | none => rfl
  | some model =>
    simp only [Option.map_some', List.map_map, Option.some.injEq]
    refine (map_id_of_mem ?_).symm
    intro v hv
    have hp := (List.mem_filter.mp hv).2
    simp only [rangeMem, Bool.and_eq_true] at hp
    have hpos : (0 : Int) < v := of_decide_eq_true hp.1
    have hmod : ((v.natAbs : Int) - 1) % ((numLabels : Nat) : Int) = 0 :=
      of_decide_eq_true hp.2.2
    rw [Int.natAbs_of_nonneg (le_of_lt hpos)] at hmod
    simp only [numLabels, Nat.cast_ofNat] at hmod
    simp only [Function.comp, _calculateLabelVar, Label.val, numLabels,
      Nat.cast_ofNat]
    omega

/-- Helper: one unparsable token anywhere makes the whole model parse fail. -/
lemma tokensToModel_eq_none {ts : List String} {t : String} (ht : t ∈ ts)
    (hbad : pyInt t = none) : tokensToModel ts = none := by
  induction ts with
  | nil => cases ht
  | cons s rest ih =>
    rcases List.mem_cons.mp ht with rfl | hmem
    · simp [tokensToModel, hbad]
    · rw [tokensToModel, ih hmem]
      cases pyInt s <;> rfl

/-- Helper: a successful model parse has one integer per token. -/
lemma tokensToModel_length {ts : List String} {model : List Int}
    (h : tokensToModel ts = some model) : model.length = ts.length := by
  induction ts generalizing model with
  | nil =>
    simp only [tokensToModel, Option.some.injEq] at h
    simp [← h]
  | cons s rest ih =>
    rw [tokensToModel] at h
    cases hs : pyInt s with
    | none => rw [hs] at h; cases h
    | some v =>
      rw [hs] at h
      cases hr : tokensToModel rest with
      | none => rw [hr] at h; cases h
      | some m =>
        rw [hr] at h
        simp only [Option.some.injEq] at h
        simp [← h, ih hr]

/-- C7: whenever any token between the discarded first and last tokens does
not parse as an integer, both decoders fail as a whole — the model parse (the
raised `ValueError`) aborts the call, so neither decoder skips the token or
returns a truncated list. -/
theorem claim_C7 (sat_output t : String) (ht : t ∈ middleTokens sat_output)
    (hbad : pyInt t = none) :
    extractExtention sat_output = none ∧ extractLabeling sat_output = none := by
  have h := tokensToModel_eq_none ht hbad
  exact ⟨by simp [extractExtention, h], by simp [extractLabeling, h]⟩

/-- Witness for C7 on the output `"SAT 1 x 0"`, whose middle token `"x"` is
not an integer. -/
theorem claim_C7_witness :
    "x" ∈ middleTokens "SAT 1 x 0" ∧ pyInt "x" = none
    ∧ (extractExtention "SAT 1 x 0" = none
       ∧ extractLabeling "SAT 1 x 0" = none) :=
  ⟨by decide, by decide, claim_C7 "SAT 1 x 0" "x" (by decide) (by decide)⟩

/-- C8: when every token other than the discarded first and last parses as an
integer, `extractLabeling` returns exactly the positive ones — an in-order
subsequence of the parsed model, every member positive. -/
theorem claim_C8 (sat_output : String) (model : List Int)
    (h : tokensToModel (middleTokens sat_output) = some model) :
    extractLabeling sat_output = some (model.filter (fun x => decide (0 < x)))
    ∧ (model.filter (fun x => decide (0 < x))).Sublist model
    ∧ ∀ v ∈ model.filter (fun x => decide (0 < x)), 0 < v := by
  refine ⟨by simp [extractLabeling, h], List.filter_sublist _, ?_⟩
  intro v hv
  exact of_decide_eq_true (List.mem_filter.mp hv).2

/-- Witness for C8 on the output `"SAT 1 -2 3 0"`. -/
theorem claim_C8_witness :
    tokensToModel (middleTokens "SAT 1 -2 3 0") = some [1, -2, 3]
    ∧ (extractLabeling "SAT 1 -2 3 0" =
        some (([1, -2, 3] : List Int).filter (fun x => decide (0 < x)))
       ∧ (([1, -2, 3] : List Int).filter
            (fun x => decide (0 < x))).Sublist [1, -2, 3]
       ∧ ∀ v ∈ ([1, -2, 3] : List Int).filter (fun x => decide (0 < x)),
           0 < v) :=
  ⟨by decide, claim_C8 "SAT 1 -2 3 0" [1, -2, 3] (by decide)⟩

/-- C10: every value `extractExtention` returns lies in
`range(1, M, 3)` where `M` is the count of tokens left after discarding the
first and the last — the filter bound is the token count, not the framework's
variable count — and in particular any positive model value at or above `M`
is silently excluded from the result. -/
theorem claim_C10 (sat_output : String) (l : List Int)
    (h : extractExtention sat_output = some l) :
    (∀ v ∈ l, 1 ≤ v ∧ v < ((middleTokens sat_output).length : Int)
       ∧ (v - 1) % 3 = 0)
    ∧ ∀ model, tokensToModel (middleTokens sat_output) = some model →
        ∀ v ∈ model, ((middleTokens sat_output).length : Int) ≤ v → v ∉ l := by
  unfold extractExtention at h
  cases htm : tokensToModel (middleTokens sat_output) with
  | none => rw [htm] at h; cases h
  | some model =>
    rw [htm] at h
    simp only [Option.map_some', Option.some.injEq] at h
    have hlen : model.length = (middleTokens sat_output).length :=
      tokensToModel_length htm
    constructor
    · intro v hv
      rw [← h] at hv
      have hp := (List.mem_filter.mp hv).2
      simp only [rangeMem, Bool.and_eq_true] at hp
      have hpos : (0 : Int) < v := of_decide_eq_true hp.1
      have h1 : (1 : Int) ≤ (v.natAbs : Int) := of_decide_eq_true hp.2.1.1
      have h2 : ((v.natAbs : Int)) < (model.length : Int) :=
        of_decide_eq_true hp.2.1.2
      have h3 : ((v.natAbs : Int) - 1) % ((numLabels : Nat) : Int) = 0 :=
        of_decide_eq_true hp.2.2
      rw [Int.natAbs_of_nonneg (le_of_lt hpos)] at h1 h2 h3
      rw [hlen] at h2
      simp only [numLabels, Nat.cast_ofNat] at h3
      exact ⟨h1, h2, h3⟩
    · intro model' hm' v hv hge hvl
      have hmm : model' = model := (Option.some.inj hm').symm
      subst hmm
      rw [← h] at hvl
      have hp := (List.mem_filter.mp hvl).2
      simp only [rangeMem, Bool.and_eq_true] at hp
      have h2 : ((v.natAbs : Int)) < (model'.length : Int) :=
        of_decide_eq_true hp.2.1.2
      have hpos : (0 : Int) < v := of_decide_eq_true hp.1
      rw [Int.natAbs_of_nonneg (le_of_lt hpos)] at h2
      rw [hlen] at h2
      omega

/-- Witness for C10 on the output `"SAT 4 -1 0"`: only two middle tokens, so
the positive `In`-position variable 4 is excluded and the extension is empty. -/
theorem claim_C10_witness :
    extractExtention "SAT 4 -1 0" = some []
    ∧ ((∀ v ∈ ([] : List Int),
          1 ≤ v ∧ v < ((middleTokens "SAT 4 -1 0").length : Int)
          ∧ (v - 1) % 3 = 0)
       ∧ ∀ model, tokensToModel (middleTokens "SAT 4 -1 0") = some model →
           ∀ v ∈ model, ((middleTokens "SAT 4 -1 0").length : Int) ≤ v →
             v ∉ ([] : List Int)) :=
  ⟨by decide, claim_C10 "SAT 4 -1 0" [] (by decide)⟩

/-- Helper: the clause count of `generateAll` is the sum of the per-argument
clause counts. -/
lemma generateAll_length (t : CNFTheory) (args : List Int) (f : Framework) :
    (t.generateAll args f).length =
      (args.map (fun a => (t.template a f).length)).sum := by
  simp only [CNFTheory.generateAll, CNFTheory.generate, List.length_flatten,
    List.map_map]
  rfl

/-- Helper: summing a constant over a list. -/
lemma sum_map_const (l : List Int) (k : Nat) :
    (l.map (fun _ => k)).sum = k * l.length := by
  induction l with
  | nil => simp
  | cons x xs ih =>
    simp only [List.map_cons, List.sum_cons, List.length_cons, ih]
    ring

/-- Helper: `uniqueness_theory` emits exactly four clauses. -/
lemma uniqueness_theory_length (a : Int) (f : Framework) :
    (uniqueness_theory a f).length = 4 := rfl

/-- Helper: `in_complete_1` emits exactly one clause. -/
lemma in_complete_1_length (a : Int) (f : Framework) :
    (in_complete_1 a f).length = 1 := rfl

/-- Helper: `out_complete_2` emits exactly one clause. -/
lemma out_complete_2_length (a : Int) (f : Framework) :
    (out_complete_2 a f).length = 1 := rfl

/-- Helper: `in_complete_2` emits one clause per attacked argument. -/
lemma in_complete_2_length (a : Int) (f : Framework) :
    (in_complete_2 a f).length = (f.getAttackedBy a).length := by
  simp [in_complete_2]

/-- Helper: `out_complete_1` emits one clause per attacker. -/
lemma out_complete_1_length (a : Int) (f : Framework) :
    (out_complete_1 a f).length = (f.getAttackers a).length := by
  simp [out_complete_1]

/-- C3: the DIMACS problem the complete-semantics ruleset produces for a
framework with `N` arguments and total attack-edge count `E` (the sum of
attacker-set sizes; for a well-formed framework the attacked-by sets sum to
the same `E`) carries header clause count `6N + 2E` — 4N uniqueness, N
in-rule-1, E in-rule-2, E out-rule-1, N out-rule-2 — and header variable
count `3N`. -/
theorem claim_C3 (f : Framework) (h : sumAttackedBy f = sumAttackers f) :
    (parse CompleteLabelingDIMACSParser f)._header._clauses =
      6 * f.len + 2 * sumAttackers f
    ∧ (parse CompleteLabelingDIMACSParser f)._header._vars = 3 * f.len := by
  constructor
  · show (rawClauses CompleteLabelingDIMACSParser f).length = _
    simp only [rawClauses, CompleteLabelingDIMACSParser, List.map_cons,
      List.map_nil, List.length_flatten, List.sum_cons, List.sum_nil,
      generateAll_length, uniqueness_theory_length, in_complete_1_length,
      in_complete_2_length, out_complete_1_length, out_complete_2_length,
      sum_map_const]
    simp only [sumAttackedBy, sumAttackers] at h ⊢
    simp only [Framework.len]
    omega
  · show f.len * numLabels = 3 * f.len
    simp only [numLabels]
    omega

/-- Witness for C3 on the concrete two-argument framework with its single
attack edge: 14 clauses and 6 variables. -/
theorem claim_C3_witness :
    sumAttackedBy F12 = sumAttackers F12
    ∧ ((parse CompleteLabelingDIMACSParser F12)._header._clauses =
        6 * F12.len + 2 * sumAttackers F12
       ∧ (parse CompleteLabelingDIMACSParser F12)._header._vars =
        3 * F12.len) :=
  ⟨by decide, claim_C3 F12 (by decide)⟩

/-- Helper: for a nonempty list of lines, newline-join plus a final newline is
the same text as terminating every line with a newline. -/
lemma joinSep_newline (ls : List String) (hne : ls ≠ []) :
    joinSep "\n" ls ++ "\n" = ls.foldr (fun s acc => s ++ "\n" ++ acc) "" := by
  induction ls with
  | nil => exact absurd rfl hne
  | cons s rest ih =>
    cases rest with
    | nil => simp [joinSep]
    | cons r rs =>
      rw [List.foldr_cons, ← ih (by simp)]
      show s ++ "\n" ++ joinSep "\n" (r :: rs) ++ "\n" =
        s ++ "\n" ++ (joinSep "\n" (r :: rs) ++ "\n")
      rw [String.append_assoc]

/-- C9 amended: whenever the ruleset produces at least one clause, the problem
text is exactly the header line `p cnf <vars> <clauses>` followed by a newline
and then one newline-terminated line per clause, the clause's literals as
signed decimals joined by single spaces with a trailing ` 0`. (With zero
clauses the text carries one extra blank line after the header, see the
counterexample.) -/
theorem claim_C9 (theories : List CNFTheory) (f : Framework)
    (h : rawClauses theories f ≠ []) :
    (parse theories f).str =
      specDIMACSText (f.len * numLabels) (rawClauses theories f).length
        (rawClauses theories f) := by
  show DIMACSHeader.str _ ++ parseCNFTheory (rawClauses theories f) =
    DIMACSHeader.str _ ++ _
  congr 1
  unfold parseCNFTheory
  have hne : (rawClauses theories f).map (fun clause =>
      joinSep " " (clause.map (fun x => toString x)) ++ " 0") ≠ [] := by
    cases hr : rawClauses theories f with
    | nil => exact absurd hr h
    | cons c cs => simp
  rw [joinSep_newline _ hne, List.foldr_map]

/-- Witness for C9 (amended) on the complete ruleset over the concrete
two-argument framework, which produces 14 clauses. -/
theorem claim_C9_witness :
    rawClauses CompleteLabelingDIMACSParser F12 ≠ []
    ∧ (parse CompleteLabelingDIMACSParser F12).str =
        specDIMACSText (F12.len * numLabels)
          (rawClauses CompleteLabelingDIMACSParser F12).length
          (rawClauses CompleteLabelingDIMACSParser F12) :=
  ⟨by decide, claim_C9 CompleteLabelingDIMACSParser F12 (by decide)⟩

/-- C9 counterexample: a parser with no theories (an empty ruleset, as the
variadic `DIMACSParser(*theories)` admits) produces zero clauses on the
two-argument framework, and `'\n'.join([]) + '\n'` then leaves one extra
blank line after the header, so the text is not header-plus-one-line-per-
clause as claimed for every framework and ruleset. -/
theorem claim_C9_counterexample :
    rawClauses [] F12 = []
    ∧ (parse [] F12).str = "p cnf 6 0\n\n"
    ∧ specDIMACSText (F12.len * numLabels) (rawClauses [] F12).length
        (rawClauses [] F12) = "p cnf 6 0\n"
    ∧ ("p cnf 6 0\n\n" : String) ≠ "p cnf 6 0\n" := by
  refine ⟨rfl, by decide, by decide, by decide⟩

end SAF
